import Mathlib

set_option linter.unusedVariables false
set_option maxRecDepth 40000

/-!
# Verification of `packages/wxt/src/core/utils/building/generate-wxt-dir.ts`

A shallow embedding of the `.wxt/` type-declaration generation pipeline.
The file `generate-wxt-dir.ts` is embedded function by function; the
helpers it imports from elsewhere in the repository
(`writeFileIfDifferent`, `normalizePath`, `parseI18nMessages`,
`getEntrypointBundlePath`, `isHtmlEntrypoint`, `getGlobals`,
`getEntrypointGlobals`, `getPublicFiles`) are not part of the shown
sources and are modelled from the specification, as noted on each
definition.  External collaborators (the unimport engine, `fs-extra`,
`JSON.parse`) are modelled as explicit inputs.
-/

namespace Wxt

/-! ## File-system model

The file system is an association list from absolute paths to file
contents.  `fsRead`/`fsWrite` model `fs.readFile` and an unconditional
write (create or overwrite). -/

abbrev Fs := List (String × String)

def fsRead : Fs → String → Option String
  | [], _ => none
  | (q, c) :: t, p => if q = p then some c else fsRead t p

def fsWrite : Fs → String → String → Fs
  | [], p, c => [(p, c)]
  | (q, d) :: t, p, c => if q = p then (p, c) :: t else (q, d) :: fsWrite t p c

/-- Modelled from the spec: the Idempotent Writer `writeFileIfDifferent`
(§4.2): "writes `content` only when absent or different, byte-for-byte";
returns the new file system and whether a write occurred. -/
def writeFileIfDifferent (p c : String) (fs : Fs) : Fs × Bool :=
  if fsRead fs p = some c then (fs, false) else (fsWrite fs p c, true)

/-- `fs-extra`'s `writeJson`: an unconditional write (the file is touched
even when the serialized content is unchanged). -/
def writeJsonFile (p c : String) (fs : Fs) : Fs × Bool :=
  (fsWrite fs p c, true)

/-! ## Path helpers -/

/-- Modelled from the spec: the Path Normalizer `normalizePath` (§4.1):
"converts platform path separators to a canonical forward-slash form". -/
def normalizePath (p : String) : String :=
  String.mk (p.data.map fun ch => if ch = '\\' then '/' else ch)

/-- Node's `path.resolve(dir, name)` for an absolute normalized `dir` and
a plain relative `name`, the only use made of it by this module. -/
def pathResolve (dir name : String) : String :=
  dir ++ "/" ++ name

def dropCommonPrefix : List String → List String → List String × List String
  | a :: as, b :: bs =>
      if a = b then dropCommonPrefix as bs else (a :: as, b :: bs)
  | as, bs => (as, bs)

def splitSlashAux : List Char → List Char → List String
  | [], acc => [String.mk acc.reverse]
  | c :: t, acc =>
      if c = '/' then String.mk acc.reverse :: splitSlashAux t []
      else splitSlashAux t (c :: acc)

/-- Split a path into its `/`-separated segments. -/
def splitSlash (s : String) : List String :=
  splitSlashAux s.data []

/-- Node's POSIX `path.relative(fromDir, target)` for absolute normalized
paths: drop the common prefix of segments, then climb with `..` and
descend into the remaining target segments. -/
def pathRelative (fromDir target : String) : String :=
  let s := dropCommonPrefix (splitSlash fromDir) (splitSlash target)
  String.intercalate "/" (s.1.map (fun _ => "..") ++ s.2)

def findSubAux : List Char → List Char → Option (List Char × List Char)
  | [], pat => if pat.isEmpty then some ([], []) else none
  | c :: t, pat =>
      if pat.isPrefixOf (c :: t) then some ([], (c :: t).drop pat.length)
      else
        match findSubAux t pat with
        | some pr => some (c :: pr.1, pr.2)
        | none => none

/-- JavaScript's `String.prototype.replace` with a string pattern:
replace the first occurrence of `pat` by `repl` (each template used by
this module contains its placeholder exactly once). -/
def replaceFirst (s pat repl : String) : String :=
  match findSubAux s.data pat.data with
  | some pr => String.mk pr.1 ++ repl ++ String.mk pr.2
  | none => s

/-- Lexicographic comparison of character lists, by character code. -/
def charListLe : List Char → List Char → Bool
  | [], _ => true
  | _ :: _, [] => false
  | a :: as, b :: bs =>
      if a < b then true else if b < a then false else charListLe as bs

/-- JavaScript's default `Array.prototype.sort` string comparator:
lexicographic by character code (agrees with Lean's `String` order; see
`strLe_iff`). -/
def strLe (a b : String) : Prop :=
  charListLe a.data b.data = true

instance : DecidableRel strLe :=
  fun _ _ => inferInstanceAs (Decidable (_ = true))

/-! ## Data model -/

/-- Spec §3: entrypoint kind — markup-producing vs. script-producing. -/
inductive EntrypointKind
  | markup
  | script
deriving DecidableEq

/-- Spec §3: a logical build target with an identifier, an output bundle
path template (output-relative, extension supplied at render time) and a
kind. -/
structure Entrypoint where
  name : String
  outputBaseName : String
  kind : EntrypointKind
deriving DecidableEq

/-- Modelled from the spec: `isHtmlEntrypoint` — true for the
markup-producing entrypoints. -/
def isHtmlEntrypoint (e : Entrypoint) : Bool :=
  match e.kind with
  | EntrypointKind.markup => true
  | EntrypointKind.script => false

/-- Modelled from the spec: `getEntrypointBundlePath` (§6): maps an
entrypoint, the output directory and an extension hint to the entry's
public output path (relative to the output directory). -/
def getEntrypointBundlePath (e : Entrypoint) (outDir : String) (ext : String) : String :=
  e.outputBaseName ++ ext

/-- A typed environment global (spec §3 GlobalDescriptor): name and
textual type expression. -/
structure WxtGlobal where
  name : String
  type : String
deriving DecidableEq

/-- Spec §3 ModuleDescriptor origin: externally-installed
(`node_module`) vs. locally-defined. -/
inductive ModuleType
  | node_module
  | localModule
deriving DecidableEq

/-- Spec §3 ModuleDescriptor: identifier, origin, optional configuration
key. -/
structure WxtModule where
  id : String
  type : ModuleType
  configKey : Option String
deriving DecidableEq

/-- One raw localization catalog entry: `{message, description,
placeholders}` (spec §4.3). -/
structure RawI18nMessage where
  message : String
  description : Option String
  placeholders : List (String × String) := []
deriving DecidableEq

/-- A parsed message descriptor (spec §3 MessageDescriptor). -/
structure Message where
  name : String
  message : String
  description : Option String
deriving DecidableEq

/-- Modelled from the spec: the Message Catalog Parser
`parseI18nMessages` (§4.3): maps a raw catalog (an ordered mapping of
message name to raw entry) to an ordered sequence of message
descriptors; an empty catalog yields an empty sequence. -/
def parseI18nMessages (raw : List (String × RawI18nMessage)) : List Message :=
  raw.map fun nr => { name := nr.1, message := nr.2.message, description := nr.2.description }

/-- One auto-import binding as returned by `unimport.getImports()`:
original name and optional alias (`as`). -/
structure ImportBinding where
  name : String
  as : Option String
deriving DecidableEq

/-- The eslintrc sub-options of `wxt.config.imports`
(`WxtResolvedUnimportOptions.eslintrc`).  `globalsPropValue` is carried
in its serialized JSON form. -/
structure EslintrcOptions where
  enabled : Bool
  filePath : String
  globalsPropValue : String
deriving DecidableEq

/-- The slice of the resolved build configuration (`wxt.config`) read by
`generate-wxt-dir.ts` (spec §6).  `importsEnabled` models
`wxt.config.imports !== false`; `defaultLocale` models
`wxt.config.manifest.default_locale`; `aliases` models
`wxt.config.alias` (ordered alias-mapping table). -/
structure WxtConfig where
  typesDir : String
  wxtDir : String
  outDir : String
  srcDir : String
  publicDir : String
  root : String
  outBaseDir : String
  aliases : List (String × String)
  modules : List WxtModule
  importsEnabled : Bool
  eslintrc : EslintrcOptions
  defaultLocale : Option String

/-- External collaborators (spec §6), modelled as explicit inputs:
the unimport engine's rendered declarations and resolved bindings,
the public-asset enumerator (`getPublicFiles`), the two global sources
(`getGlobals`, `getEntrypointGlobals`, the latter a function of the
entrypoint context), and `JSON.parse` plus the structural validation of
`parseI18nMessages` folded into `decodeCatalog` (`none` = parse
error). -/
structure ExternalInputs where
  importDecls : String
  importBindings : List ImportBinding
  publicFiles : List String
  buildGlobals : List WxtGlobal
  entrypointGlobals : String → List WxtGlobal
  decodeCatalog : String → Option (List (String × RawI18nMessage))

/-! ## `writePathsDeclarationFile` -/

/-- The rendering of one union member: normalize, prefix with `/`,
quote, indent as a union alternative (source line 93). -/
def renderPathLine (p : String) : String :=
  "    | \"/" ++ p ++ "\""

/-- The unsorted rendered union members, in source order: entrypoint
bundle paths (markup entries get `.html`, script entries `.js`), then
the public files, each normalized and rendered (source lines 83-93). -/
def pathsUnionMembers (outDir : String) (entrypoints : List Entrypoint)
    (publicFiles : List String) : List String :=
  ((entrypoints.map fun entry =>
      getEntrypointBundlePath entry outDir
        (if isHtmlEntrypoint entry then ".html" else ".js"))
    ++ publicFiles).map normalizePath |>.map renderPathLine

/-- The sorted union members (source line 94, `Array.prototype.sort`). -/
def pathsUnionLines (outDir : String) (entrypoints : List Entrypoint)
    (publicFiles : List String) : List String :=
  (pathsUnionMembers outDir entrypoints publicFiles).insertionSort strLe

/-- The text substituted for the union placeholder: the joined sorted
members, or `    | never` when that join is empty (source line 113,
`unions || '    | never'`). -/
def pathsUnionRendered (outDir : String) (entrypoints : List Entrypoint)
    (publicFiles : List String) : String :=
  let unions := String.intercalate "\n" (pathsUnionLines outDir entrypoints publicFiles)
  if unions = "" then "    | never" else unions

/-- The `paths.d.ts` template (source lines 97-109). -/
def pathsTemplate : String :=
  "// Generated by wxt\nimport \"wxt/browser\";\n\ndeclare module \"wxt/browser\" \x7b\n  export type PublicPath =\n\x7b\x7b union \x7d\x7d\n  type HtmlPublicPath = Extract<PublicPath, `$\x7bstring\x7d.html`>\n  export interface WxtRuntime extends Runtime.Static \x7b\n    getURL(path: PublicPath): string;\n    getURL(path: `$\x7bHtmlPublicPath\x7d$\x7bstring\x7d`): string;\n  \x7d\n\x7d\n"

/-- The full `paths.d.ts` content (source lines 111-114). -/
def pathsContent (outDir : String) (entrypoints : List Entrypoint)
    (publicFiles : List String) : String :=
  replaceFirst pathsTemplate "\x7b\x7b union \x7d\x7d"
    (pathsUnionRendered outDir entrypoints publicFiles)

/-! ## `writeImportsDeclarationFile` -/

/-- The `imports.d.ts` content (source lines 52-57): the marker comment
joined with the unimport engine's rendered declarations, plus a trailing
newline. -/
def importsFileContent (ext : ExternalInputs) : String :=
  "// Generated by wxt\n" ++ ext.importDecls ++ "\n"

/-! ## `writeImportsEslintFile` -/

/-- `i.as ?? i.name` (source line 70). -/
def effectiveImportName (b : ImportBinding) : String :=
  b.as.getD b.name

/-- The binding names that end up as eslint globals (source lines
69-72): effective names, empty ones dropped (`filter(Boolean)`),
sorted. -/
def eslintGlobalNames (bs : List ImportBinding) : List String :=
  (((bs.map effectiveImportName).filter fun n => n != "")).insertionSort strLe

/-- JavaScript object property assignment `obj[k] = v` on an ordered
record: update in place when the key exists, append otherwise. -/
def recordSet : List (String × String) → String → String → List (String × String)
  | [], k, v => [(k, v)]
  | (q, d) :: t, k, v => if q = k then (k, v) :: t else (q, d) :: recordSet t k v

/-- The ordered entries of the emitted `globals` record (source lines
66-75): each sorted name assigned the configured
`globalsPropValue`. -/
def eslintrcEntries (bs : List ImportBinding) (v : String) : List (String × String) :=
  (eslintGlobalNames bs).foldl (fun acc n => recordSet acc n v) []

/-- A deterministic model of `fs.writeJson(..., { globals }, { spaces:
2 })` (source line 76): serializes the ordered `globals` record. -/
def eslintrcJson (entries : List (String × String)) : String :=
  "\x7b\n  \"globals\": \x7b\n"
    ++ String.intercalate ",\n" (entries.map fun e => "    \"" ++ e.1 ++ "\": " ++ e.2)
    ++ "\n  \x7d\n\x7d\n"

/-! ## `writeI18nDeclarationFile` -/

/-- `message.description || 'No message description.'` (source line
158): the empty string is falsy, so absent and empty descriptions both
fall back. -/
def messageDescription (m : Message) : String :=
  match m.description with
  | some d => if d = "" then "No message description." else d
  | none => "No message description."

/-- One rendered `getMessage` overload (source lines 157-166). -/
def renderGetMessageOverride (m : Message) : String :=
  "    /**\n     * " ++ messageDescription m
    ++ "\n     *\n     * \"" ++ m.message
    ++ "\"\n     */\n    getMessage(\n      messageName: \"" ++ m.name
    ++ "\",\n      substitutions?: string | string[],\n      options?: GetMessageOptions,\n    ): string;"

/-- The rendered overload list, in the parser's output order (source
lines 156-167). -/
def i18nOverrides (raw : List (String × RawI18nMessage)) : List String :=
  (parseI18nMessages raw).map renderGetMessageOverride

/-- The `i18n.d.ts` template (source lines 122-140). -/
def i18nTemplate : String :=
  "// Generated by wxt\nimport \"wxt/browser\";\n\ndeclare module \"wxt/browser\" \x7b\n  /**\n   * See https://developer.chrome.com/docs/extensions/reference/i18n/#method-getMessage\n   */\n  interface GetMessageOptions \x7b\n    /**\n     * See https://developer.chrome.com/docs/extensions/reference/i18n/#method-getMessage\n     */\n    escapeLt?: boolean\n  \x7d\n\n  export interface WxtI18n extends I18n.Static \x7b\n\x7b\x7b overrides \x7d\x7d\n  \x7d\n\x7d\n"

/-- The full `i18n.d.ts` content (source lines 168-171). -/
def i18nContent (messages : List Message) : String :=
  replaceFirst i18nTemplate "\x7b\x7b overrides \x7d\x7d"
    (String.intercalate "\n" (messages.map renderGetMessageOverride))

/-- `path.resolve(publicDir, '_locales', defaultLocale,
'messages.json')` (source lines 144-149). -/
def catalogPath (cfg : WxtConfig) (loc : String) : String :=
  cfg.publicDir ++ "/_locales/" ++ loc ++ "/messages.json"

/-- The pipeline's error taxonomy (spec §7): a missing default-locale
catalog file and a structurally invalid catalog. -/
inductive GenError
  | fileNotFound
  | parseError
deriving DecidableEq

/-- `resolve(wxt.config.typesDir, 'i18n.d.ts')` (source line 120). -/
def i18nPath (cfg : WxtConfig) : String :=
  pathResolve cfg.typesDir "i18n.d.ts"

/-- The catalog read-and-parse step of `writeI18nDeclarationFile`
(source lines 142-154): with a default locale, read the catalog file
(missing file propagates as `fileNotFound`) and decode it (failure
propagates as `parseError`); without one, parse the empty catalog. -/
def readI18nMessages (cfg : WxtConfig) (ext : ExternalInputs) (fs : Fs) :
    Except GenError (List Message) :=
  match cfg.defaultLocale with
  | none => Except.ok (parseI18nMessages [])
  | some loc =>
    match fsRead fs (catalogPath cfg loc) with
    | none => Except.error GenError.fileNotFound
    | some content =>
      match ext.decodeCatalog content with
      | none => Except.error GenError.parseError
      | some raw => Except.ok (parseI18nMessages raw)

/-- `writeI18nDeclarationFile` (source lines 119-174): read and parse
first, write after.  On error the file system is returned untouched (the
exception propagates before the write); on success it returns the file
path and whether a write occurred. -/
def writeI18nDeclarationFile (cfg : WxtConfig) (ext : ExternalInputs) (fs : Fs) :
    Fs × Except GenError (String × Bool) :=
  match readI18nMessages cfg ext fs with
  | Except.error e => (fs, Except.error e)
  | Except.ok messages =>
    let r := writeFileIfDifferent (i18nPath cfg) (i18nContent messages) fs
    (r.1, Except.ok (i18nPath cfg, r.2))

/-! ## `writeGlobalsDeclarationFile` -/

/-- One rendered `ImportMetaEnv` member (source line 185). -/
def renderGlobalMember (g : WxtGlobal) : String :=
  "  readonly " ++ g.name ++ ": " ++ g.type ++ ";"

/-- The rendered interface members: build-mode globals then
entrypoint-context globals, in concatenation order (source lines
178-185). -/
def globalsMemberLines (bg eg : List WxtGlobal) : List String :=
  (bg ++ eg).map renderGlobalMember

/-- The full `globals.d.ts` content (source lines 179-190). -/
def globalsContent (bg eg : List WxtGlobal) : String :=
  String.intercalate "\n"
    (["// Generated by wxt", "export \x7b\x7d", "interface ImportMetaEnv \x7b"]
      ++ globalsMemberLines bg eg
      ++ ["\x7d", "interface ImportMeta \x7b", "  readonly env: ImportMetaEnv", "\x7d"]) ++ "\n"

/-! ## `writeMainDeclarationFile` -/

/-- The filter of source lines 213-215: externally-installed modules
with a non-null configuration key. -/
def moduleRefPred (m : WxtModule) : Bool :=
  match m.type, m.configKey with
  | ModuleType.node_module, some _ => true
  | _, _ => false

/-- One module-augmentation reference directive (source line 216). -/
def renderModuleRef (m : WxtModule) : String :=
  "/// <reference types=\"" ++ m.id ++ "\" />"

/-- The module-augmentation reference directives of `wxt.d.ts` (source
lines 212-216). -/
def moduleReferenceLines (modules : List WxtModule) : List String :=
  (modules.filter moduleRefPred).map renderModuleRef

/-- One generated-file reference directive (source lines 203-206). -/
def renderFileRef (dir ref : String) : String :=
  "/// <reference types=\"./" ++ normalizePath (pathRelative dir ref) ++ "\" />"

/-- The full `wxt.d.ts` content (source lines 198-217). -/
def mainContent (cfg : WxtConfig) (references : List String) : String :=
  String.intercalate "\n"
    (["// Generated by wxt", "/// <reference types=\"wxt/vite-builder-env\" />"]
      ++ references.map (renderFileRef cfg.wxtDir)
      ++ moduleReferenceLines cfg.modules) ++ "\n"

/-! ## `writeTsConfigFile` -/

/-- `getTsconfigPath` (source line 224). -/
def getTsconfigPath (dir p : String) : String :=
  normalizePath (pathRelative dir p)

/-- The two `paths` entries contributed by one alias mapping (source
lines 226-232). -/
def aliasPathPair (dir : String) (ab : String × String) : List String :=
  ["      \"" ++ ab.1 ++ "\": [\"" ++ getTsconfigPath dir ab.2 ++ "\"]",
   "      \"" ++ ab.1 ++ "/*\": [\"" ++ getTsconfigPath dir ab.2 ++ "/*\"]"]

/-- All `paths` entries, one bare and one wildcard line per alias
(source lines 225-233). -/
def aliasPathLines (dir : String) (aliases : List (String × String)) : List String :=
  aliases.flatMap (aliasPathPair dir)

/-- The full `tsconfig.json` content (source lines 235-258). -/
def tsconfigContent (cfg : WxtConfig) (mainReference : String) : String :=
  let dir := cfg.wxtDir
  "\x7b\n  \"compilerOptions\": \x7b\n    \"target\": \"ESNext\",\n    \"module\": \"ESNext\",\n    \"moduleResolution\": \"Bundler\",\n    \"noEmit\": true,\n    \"esModuleInterop\": true,\n    \"forceConsistentCasingInFileNames\": true,\n    \"resolveJsonModule\": true,\n    \"strict\": true,\n    \"skipLibCheck\": true,\n    \"paths\": \x7b\n"
    ++ String.intercalate ",\n" (aliasPathLines dir cfg.aliases)
    ++ "\n    \x7d\n  \x7d,\n  \"include\": [\n    \"" ++ getTsconfigPath dir cfg.root
    ++ "/**/*\",\n    \"./" ++ getTsconfigPath dir mainReference
    ++ "\"\n  ],\n  \"exclude\": [\"" ++ getTsconfigPath dir cfg.outBaseDir ++ "\"]\n\x7d"

/-! ## `generateTypesDir` -/

def boolNat (b : Bool) : Nat := if b then 1 else 0

/-- `resolve(wxt.config.typesDir, 'imports.d.ts')` (source line 47). -/
def importsPath (cfg : WxtConfig) : String :=
  pathResolve cfg.typesDir "imports.d.ts"

/-- `resolve(wxt.config.typesDir, 'paths.d.ts')` (source line 82). -/
def pathsPath (cfg : WxtConfig) : String :=
  pathResolve cfg.typesDir "paths.d.ts"

/-- `resolve(wxt.config.typesDir, 'globals.d.ts')` (source line 177). -/
def globalsPath (cfg : WxtConfig) : String :=
  pathResolve cfg.typesDir "globals.d.ts"

/-- `resolve(wxt.config.wxtDir, 'wxt.d.ts')` (source line 197). -/
def mainPath (cfg : WxtConfig) : String :=
  pathResolve cfg.wxtDir "wxt.d.ts"

/-- `resolve(wxt.config.wxtDir, 'tsconfig.json')` (source line 236). -/
def tsconfigPath (cfg : WxtConfig) : String :=
  pathResolve cfg.wxtDir "tsconfig.json"

/-- The serialized eslintrc file content (source lines 66-76). -/
def eslintFileContent (cfg : WxtConfig) (ext : ExternalInputs) : String :=
  eslintrcJson (eslintrcEntries ext.importBindings cfg.eslintrc.globalsPropValue)

/-- The full `globals.d.ts` content for the two configured global
sources, the entrypoint source queried with the empty context (source
line 178). -/
def globalsFileContent (ext : ExternalInputs) : String :=
  globalsContent ext.buildGlobals (ext.entrypointGlobals "")

/-- The imports steps of `generateTypesDir` (source lines 30-36): when
imports are enabled, write `imports.d.ts` through the idempotent writer
and, when additionally enabled, the eslintrc file through the
unconditional `fs.writeJson`; returns the file system, the write count
and the references contributed. -/
def importsStage (cfg : WxtConfig) (ext : ExternalInputs) (fs : Fs) :
    Fs × Nat × List String :=
  if cfg.importsEnabled then
    let a := writeFileIfDifferent (importsPath cfg) (importsFileContent ext) fs
    let b :=
      if cfg.eslintrc.enabled then
        writeJsonFile cfg.eslintrc.filePath (eslintFileContent cfg ext) a.1
      else (a.1, false)
    (b.1, boolNat a.2 + boolNat b.2, [importsPath cfg])
  else (fs, 0, [])

/-- The final steps of `generateTypesDir` (source lines 40-43):
`globals.d.ts`, then the root declaration file for the collected
references, then `tsconfig.json` against the root file's location. -/
def finishStage (cfg : WxtConfig) (ext : ExternalInputs)
    (references : List String) (fs : Fs) : Fs × Nat :=
  let s4 := writeFileIfDifferent (globalsPath cfg) (globalsFileContent ext) fs
  let s5 := writeFileIfDifferent (mainPath cfg) (mainContent cfg references) s4.1
  let s6 := writeFileIfDifferent (tsconfigPath cfg)
    (tsconfigContent cfg (mainPath cfg)) s5.1
  (s6.1, boolNat s4.2 + boolNat s5.2 + boolNat s6.2)

/-- The full pipeline `generateTypesDir` (source lines 23-44), as a
state transformer on the file-system model that also counts the file
writes performed.  Write order follows the source: `imports.d.ts` (when
imports are enabled), the eslintrc file (when additionally enabled,
through the unconditional `fs.writeJson`), `paths.d.ts`, `i18n.d.ts`
(after the catalog read, whose errors propagate), `globals.d.ts`,
`wxt.d.ts`, `tsconfig.json`. -/
def generateTypesDir (cfg : WxtConfig) (ext : ExternalInputs)
    (entrypoints : List Entrypoint) (fs : Fs) : Except GenError (Fs × Nat) :=
  let s1 := importsStage cfg ext fs
  let s2 := writeFileIfDifferent (pathsPath cfg)
    (pathsContent cfg.outDir entrypoints ext.publicFiles) s1.1
  let s3 := writeI18nDeclarationFile cfg ext s2.1
  match s3.2 with
  | Except.error e => Except.error e
  | Except.ok pr =>
    let s4 := finishStage cfg ext (s1.2.2 ++ [pathsPath cfg, pr.1, globalsPath cfg]) s3.1
    Except.ok (s4.1, s1.2.1 + boolNat s2.2 + boolNat pr.2 + s4.2)

/-- The paths the pipeline writes to, in write order, as determined by
the configuration. -/
def writtenPaths (cfg : WxtConfig) : List String :=
  (if cfg.importsEnabled then
      [importsPath cfg]
        ++ (if cfg.eslintrc.enabled then [cfg.eslintrc.filePath] else [])
    else [])
  ++ [pathsPath cfg, i18nPath cfg, globalsPath cfg, mainPath cfg, tsconfigPath cfg]

/-- `generateTypesDir` twice from `fs`: the write count of the second
run (when both runs succeed). -/
def secondRunWrites (cfg : WxtConfig) (ext : ExternalInputs)
    (entrypoints : List Entrypoint) (fs : Fs) : Option Nat :=
  match generateTypesDir cfg ext entrypoints fs with
  | Except.ok r =>
    match generateTypesDir cfg ext entrypoints r.1 with
    | Except.ok r2 => some r2.2
    | Except.error _ => none
  | Except.error _ => none

/-! ## Concrete fixtures for the evaluation theorems -/

/-- A concrete resolved configuration: imports and eslintrc support
enabled, no default locale. -/
def exCfg : WxtConfig :=
  { typesDir := "/p/.wxt/types", wxtDir := "/p/.wxt",
    outDir := "/p/.output/chrome-mv3", srcDir := "/p/src",
    publicDir := "/p/public", root := "/p", outBaseDir := "/p/.output",
    aliases := [("@", "/p/src")],
    modules := [{ id := "a", type := ModuleType.node_module, configKey := some "a" }],
    importsEnabled := true,
    eslintrc := { enabled := true, filePath := "/p/.wxt/eslintrc-auto-import.json",
                  globalsPropValue := "true" },
    defaultLocale := none }

/-- `exCfg` with a default locale configured. -/
def exCfgLocale : WxtConfig :=
  { exCfg with defaultLocale := some "en" }

/-- Concrete external inputs (the catalog decoder rejects everything,
exercising the parse-error path where used). -/
def exExt : ExternalInputs :=
  { importDecls := "declare const x: number;",
    importBindings := [{ name := "x", as := none }],
    publicFiles := ["icon.png"],
    buildGlobals := [{ name := "MODE", type := "string" }],
    entrypointGlobals := fun _ => [{ name := "ENTRYPOINT", type := "string" }],
    decodeCatalog := fun _ => none }

/-- A markup and a script entrypoint. -/
def exEntrypoints : List Entrypoint :=
  [{ name := "popup", outputBaseName := "popup", kind := EntrypointKind.markup },
   { name := "background", outputBaseName := "background", kind := EntrypointKind.script }]

/-- The file system produced by the first pipeline run on the empty
file system. -/
def firstRunFs : Fs :=
  match generateTypesDir exCfg exExt exEntrypoints [] with
  | Except.ok r => r.1
  | Except.error _ => []

/-! ## Basic lemmas about the file-system model -/

theorem fsRead_fsWrite (fs : Fs) (p c q : String) :
    fsRead (fsWrite fs p c) q = if q = p then some c else fsRead fs q := by
  induction fs with
  | nil =>
    by_cases h : q = p
    · subst h; simp [fsWrite, fsRead]
    · simp [fsWrite, fsRead, h, Ne.symm h]
  | cons hd t ih =>
    obtain ⟨q', d⟩ := hd
    by_cases h1 : q' = p
    · subst h1
      by_cases h2 : q = q'
      · subst h2; simp [fsWrite, fsRead]
      · simp [fsWrite, fsRead, h2, Ne.symm h2]
    · by_cases h2 : q' = q
      · subst h2
        simp [fsWrite, fsRead, h1]
      · simp [fsWrite, fsRead, h1, h2, ih]

theorem fsWrite_self {fs : Fs} {p c : String} (h : fsRead fs p = some c) :
    fsWrite fs p c = fs := by
  induction fs with
  | nil => simp [fsRead] at h
  | cons hd t ih =>
    obtain ⟨q, d⟩ := hd
    by_cases h1 : q = p
    · subst h1
      simp [fsRead] at h
      simp [fsWrite, h]
    · simp [fsRead, h1] at h
      simp [fsWrite, h1, ih h]

theorem writeFileIfDifferent_noop {fs : Fs} {p c : String}
    (h : fsRead fs p = some c) :
    writeFileIfDifferent p c fs = (fs, false) := by
  simp [writeFileIfDifferent, h]

theorem fsRead_writeFileIfDifferent (p c : String) (fs : Fs) (q : String) :
    fsRead (writeFileIfDifferent p c fs).1 q
      = if q = p then some c else fsRead fs q := by
  unfold writeFileIfDifferent
  split
  · rename_i h
    by_cases h2 : q = p <;> simp [h2, h]
  · simp [fsRead_fsWrite]

theorem fsRead_writeJsonFile (p c : String) (fs : Fs) (q : String) :
    fsRead (writeJsonFile p c fs).1 q
      = if q = p then some c else fsRead fs q := by
  simp [writeJsonFile, fsRead_fsWrite]

theorem readI18nMessages_congr {cfg : WxtConfig} {ext : ExternalInputs} {fs fs' : Fs}
    (h : ∀ loc, cfg.defaultLocale = some loc →
      fsRead fs (catalogPath cfg loc) = fsRead fs' (catalogPath cfg loc)) :
    readI18nMessages cfg ext fs = readI18nMessages cfg ext fs' := by
  cases hdl : cfg.defaultLocale with
  | none => simp [readI18nMessages, hdl]
  | some loc =>
    simp only [readI18nMessages, hdl]
    rw [h loc hdl]

theorem writeI18n_ok {cfg : WxtConfig} {ext : ExternalInputs} {fs : Fs}
    {msgs : List Message}
    (hr : readI18nMessages cfg ext fs = Except.ok msgs) :
    writeI18nDeclarationFile cfg ext fs
      = ((writeFileIfDifferent (i18nPath cfg) (i18nContent msgs) fs).1,
         Except.ok (i18nPath cfg,
           (writeFileIfDifferent (i18nPath cfg) (i18nContent msgs) fs).2)) := by
  simp [writeI18nDeclarationFile, hr]

theorem writeI18n_err {cfg : WxtConfig} {ext : ExternalInputs} {fs : Fs} {e : GenError}
    (hr : readI18nMessages cfg ext fs = Except.error e) :
    writeI18nDeclarationFile cfg ext fs = (fs, Except.error e) := by
  simp [writeI18nDeclarationFile, hr]

/-! ## Lookup and no-op lemmas for the pipeline stages -/

theorem fsRead_importsStage_other {cfg : WxtConfig} {ext : ExternalInputs} {fs : Fs}
    {q : String}
    (hq1 : cfg.importsEnabled = true → q ≠ importsPath cfg)
    (hq2 : cfg.importsEnabled = true → cfg.eslintrc.enabled = true →
      q ≠ cfg.eslintrc.filePath) :
    fsRead (importsStage cfg ext fs).1 q = fsRead fs q := by
  unfold importsStage
  cases hI : cfg.importsEnabled with
  | false => simp
  | true =>
    cases hE : cfg.eslintrc.enabled with
    | false => simp [fsRead_writeFileIfDifferent, hq1 hI]
    | true =>
      simp [fsRead_writeFileIfDifferent, fsRead_writeJsonFile, hq1 hI, hq2 hI hE]

theorem fsRead_importsStage_imports {cfg : WxtConfig} {ext : ExternalInputs} {fs : Fs}
    (hI : cfg.importsEnabled = true)
    (hne : cfg.eslintrc.enabled = true → importsPath cfg ≠ cfg.eslintrc.filePath) :
    fsRead (importsStage cfg ext fs).1 (importsPath cfg)
      = some (importsFileContent ext) := by
  unfold importsStage
  rw [hI]
  cases hE : cfg.eslintrc.enabled with
  | false => simp [fsRead_writeFileIfDifferent]
  | true =>
    simp [fsRead_writeFileIfDifferent, fsRead_writeJsonFile, hne hE]

theorem fsRead_importsStage_eslint {cfg : WxtConfig} {ext : ExternalInputs} {fs : Fs}
    (hI : cfg.importsEnabled = true) (hE : cfg.eslintrc.enabled = true) :
    fsRead (importsStage cfg ext fs).1 cfg.eslintrc.filePath
      = some (eslintFileContent cfg ext) := by
  unfold importsStage
  rw [hI, hE]
  simp [fsRead_writeJsonFile]

theorem importsStage_noop {cfg : WxtConfig} {ext : ExternalInputs} {fs : Fs}
    (h1 : cfg.importsEnabled = true →
      fsRead fs (importsPath cfg) = some (importsFileContent ext))
    (h2 : cfg.importsEnabled = true → cfg.eslintrc.enabled = true →
      fsRead fs cfg.eslintrc.filePath = some (eslintFileContent cfg ext)) :
    importsStage cfg ext fs
      = (fs, (if cfg.importsEnabled && cfg.eslintrc.enabled then 1 else 0),
         if cfg.importsEnabled then [importsPath cfg] else []) := by
  unfold importsStage
  cases hI : cfg.importsEnabled with
  | false => simp
  | true =>
    cases hE : cfg.eslintrc.enabled with
    | false => simp [writeFileIfDifferent_noop (h1 hI), boolNat]
    | true =>
      simp [writeFileIfDifferent_noop (h1 hI), writeJsonFile,
        fsWrite_self (h2 hI hE), boolNat]

theorem fsRead_finishStage_other {cfg : WxtConfig} {ext : ExternalInputs}
    {refs : List String} {fs : Fs} {q : String}
    (hq4 : q ≠ globalsPath cfg) (hq5 : q ≠ mainPath cfg) (hq6 : q ≠ tsconfigPath cfg) :
    fsRead (finishStage cfg ext refs fs).1 q = fsRead fs q := by
  simp [finishStage, fsRead_writeFileIfDifferent, hq4, hq5, hq6]

theorem fsRead_finishStage_globals {cfg : WxtConfig} {ext : ExternalInputs}
    {refs : List String} {fs : Fs}
    (hq5 : globalsPath cfg ≠ mainPath cfg) (hq6 : globalsPath cfg ≠ tsconfigPath cfg) :
    fsRead (finishStage cfg ext refs fs).1 (globalsPath cfg)
      = some (globalsFileContent ext) := by
  simp [finishStage, fsRead_writeFileIfDifferent, hq5, hq6]

theorem fsRead_finishStage_main {cfg : WxtConfig} {ext : ExternalInputs}
    {refs : List String} {fs : Fs}
    (hq6 : mainPath cfg ≠ tsconfigPath cfg) :
    fsRead (finishStage cfg ext refs fs).1 (mainPath cfg)
      = some (mainContent cfg refs) := by
  simp [finishStage, fsRead_writeFileIfDifferent, hq6]

theorem fsRead_finishStage_tsconfig {cfg : WxtConfig} {ext : ExternalInputs}
    {refs : List String} {fs : Fs} :
    fsRead (finishStage cfg ext refs fs).1 (tsconfigPath cfg)
      = some (tsconfigContent cfg (mainPath cfg)) := by
  simp [finishStage, fsRead_writeFileIfDifferent]

theorem finishStage_noop {cfg : WxtConfig} {ext : ExternalInputs}
    {refs : List String} {fs : Fs}
    (h4 : fsRead fs (globalsPath cfg) = some (globalsFileContent ext))
    (h5 : fsRead fs (mainPath cfg) = some (mainContent cfg refs))
    (h6 : fsRead fs (tsconfigPath cfg) = some (tsconfigContent cfg (mainPath cfg))) :
    finishStage cfg ext refs fs = (fs, 0) := by
  simp [finishStage, writeFileIfDifferent_noop h4, writeFileIfDifferent_noop h5,
    writeFileIfDifferent_noop h6, boolNat]

/-! ## The string comparator -/

theorem charListLe_iff : ∀ as bs : List Char, charListLe as bs = true ↔ ¬ List.lt bs as
  | [], [] => by
    simp [charListLe]
    exact nofun
  | [], _ :: _ => by
    simp [charListLe]
    exact nofun
  | _ :: _, [] => by
    simp [charListLe]
    exact List.lt.nil _ _
  | a :: as, b :: bs => by
    by_cases h1 : a < b
    · simp only [charListLe, if_pos h1, true_iff]
      intro h
      cases h with
      | head _ _ hba => exact absurd hba (lt_asymm h1)
      | tail hba hab htl => exact absurd h1 hab
    · by_cases h2 : b < a
      · simp only [charListLe, if_neg h1, if_pos h2, Bool.false_eq_true, false_iff, not_not]
        exact List.lt.head _ _ h2
      · have ih := charListLe_iff as bs
        simp only [charListLe, if_neg h1, if_neg h2, ih]
        constructor
        · intro h hcons
          cases hcons with
          | head _ _ hba => exact absurd hba h2
          | tail _ _ htl => exact h htl
        · intro h htl
          exact h (List.lt.tail h2 h1 htl)

theorem strLe_iff (a b : String) : strLe a b ↔ a ≤ b := by
  rw [String.le_iff_toList_le, ← not_lt]
  show strLe a b ↔ ¬ List.Lex (· < ·) b.toList a.toList
  rw [← List.lt_iff_lex_lt]
  exact charListLe_iff a.data b.data

theorem charListLe_total : ∀ as bs : List Char,
    charListLe as bs = true ∨ charListLe bs as = true
  | [], _ => Or.inl rfl
  | _ :: _, [] => Or.inr rfl
  | a :: as, b :: bs => by
    by_cases h1 : a < b
    · exact Or.inl (by simp [charListLe, h1])
    · by_cases h2 : b < a
      · exact Or.inr (by simp [charListLe, h2])
      · cases charListLe_total as bs with
        | inl h => exact Or.inl (by simp [charListLe, h1, h2, h])
        | inr h => exact Or.inr (by simp [charListLe, h1, h2, h])

theorem charListLe_trans : ∀ as bs cs : List Char,
    charListLe as bs = true → charListLe bs cs = true → charListLe as cs = true
  | [], _, _ => fun _ _ => rfl
  | _ :: _, [], _ => fun h _ => by simp [charListLe] at h
  | _ :: _, _ :: _, [] => fun _ h => by simp [charListLe] at h
  | a :: as, b :: bs, c :: cs => fun h1 h2 => by
    by_cases hab : a < b
    · by_cases hbc : b < c
      · simp [charListLe, lt_trans hab hbc]
      · by_cases hcb : c < b
        · simp [charListLe, hbc, hcb] at h2
        · have hbc' : b = c := le_antisymm (not_lt.mp hcb) (not_lt.mp hbc)
          subst hbc'
          simp [charListLe, hab]
    · by_cases hba : b < a
      · simp [charListLe, hab, hba] at h1
      · have hab' : a = b := le_antisymm (not_lt.mp hba) (not_lt.mp hab)
        subst hab'
        by_cases hac : a < c
        · simp [charListLe, hac]
        · by_cases hca : c < a
          · simp [charListLe, hac, hca] at h2
          · simp only [charListLe, if_neg hab, if_neg hba] at h1
            simp only [charListLe, if_neg hac, if_neg hca] at h2 ⊢
            exact charListLe_trans as bs cs h1 h2

instance : IsTotal String strLe :=
  ⟨fun a b => charListLe_total a.data b.data⟩

instance : IsTrans String strLe :=
  ⟨fun a b c => charListLe_trans a.data b.data c.data⟩

/-! ## Lemmas about record insertion (the eslintrc globals object) -/

theorem recordSet_fst : ∀ (l : List (String × String)) (k v : String),
    (recordSet l k v).map Prod.fst
      = if k ∈ l.map Prod.fst then l.map Prod.fst else l.map Prod.fst ++ [k]
  | [], k, v => by simp [recordSet]
  | (q, d) :: t, k, v => by
    by_cases h : q = k
    · subst h; simp [recordSet]
    · by_cases hm : k ∈ t.map Prod.fst <;>
        simp [recordSet, h, hm, Ne.symm h, recordSet_fst t k v]

theorem recordSet_values : ∀ (l : List (String × String)) (k v : String),
    (∀ e ∈ l, (e : String × String).2 = v) →
    ∀ e ∈ recordSet l k v, (e : String × String).2 = v := by
  intro l
  induction l with
  | nil =>
    intro k v h e he
    simp [recordSet] at he
    rw [he]
  | cons hd t ih =>
    obtain ⟨q, d⟩ := hd
    intro k v h e he
    by_cases hq : q = k
    · subst hq
      rw [show recordSet ((q, d) :: t) q v = (q, v) :: t from by simp [recordSet]] at he
      rcases List.mem_cons.mp he with he | he
      · rw [he]
      · exact h e (List.mem_cons_of_mem _ he)
    · rw [show recordSet ((q, d) :: t) k v = (q, d) :: recordSet t k v from by
        simp [recordSet, hq]] at he
      rcases List.mem_cons.mp he with he | he
      · rw [he]; exact h (q, d) (List.mem_cons_self _ _)
      · exact ih k v (fun e' he' => h e' (List.mem_cons_of_mem _ he')) e he

theorem recordSet_mem_self : ∀ (l : List (String × String)) (k v : String),
    (k, v) ∈ recordSet l k v
  | [], k, v => by simp [recordSet]
  | (q, d) :: t, k, v => by
    by_cases h : q = k
    · subst h; simp [recordSet]
    · simp only [recordSet, if_neg h, List.mem_cons]
      exact Or.inr (recordSet_mem_self t k v)

theorem recordSet_mem_of_mem : ∀ (l : List (String × String)) (k v k' : String),
    (k', v) ∈ l → (k', v) ∈ recordSet l k v
  | [], _, _, _, h => by simp at h
  | (q, d) :: t, k, v, k', h => by
    by_cases hq : q = k
    · subst hq
      rw [show recordSet ((q, d) :: t) q v = (q, v) :: t from by simp [recordSet]]
      rcases List.mem_cons.mp h with h | h
      · have hk : k' = q := by rw [Prod.mk.injEq] at h; exact h.1
        rw [List.mem_cons, hk]
        exact Or.inl rfl
      · exact List.mem_cons_of_mem _ h
    · rw [show recordSet ((q, d) :: t) k v = (q, d) :: recordSet t k v from by
        simp [recordSet, hq]]
      rcases List.mem_cons.mp h with h | h
      · exact List.mem_cons.mpr (Or.inl h)
      · exact List.mem_cons.mpr (Or.inr (recordSet_mem_of_mem t k v k' h))

theorem recordSet_src : ∀ (l : List (String × String)) (k v : String) (e : String × String),
    e ∈ recordSet l k v → e ∈ l ∨ e = (k, v)
  | [], k, v, e, h => by
    simp [recordSet] at h
    exact Or.inr h
  | (q, d) :: t, k, v, e, h => by
    by_cases hq : q = k
    · subst hq
      rw [show recordSet ((q, d) :: t) q v = (q, v) :: t from by simp [recordSet]] at h
      rcases List.mem_cons.mp h with h | h
      · exact Or.inr h
      · exact Or.inl (List.mem_cons_of_mem _ h)
    · rw [show recordSet ((q, d) :: t) k v = (q, d) :: recordSet t k v from by
        simp [recordSet, hq]] at h
      rcases List.mem_cons.mp h with h | h
      · exact Or.inl (by simp [h])
      · rcases recordSet_src t k v e h with h2 | h2
        · exact Or.inl (List.mem_cons_of_mem _ h2)
        · exact Or.inr h2

theorem foldl_recordSet_values : ∀ (ns : List String) (acc : List (String × String)) (v : String),
    (∀ e ∈ acc, (e : String × String).2 = v) →
    ∀ e ∈ ns.foldl (fun a n => recordSet a n v) acc, (e : String × String).2 = v := by
  intro ns
  induction ns with
  | nil => intro acc v h e he; exact h e he
  | cons n t ih =>
    intro acc v h e he
    exact ih (recordSet acc n v) v (recordSet_values acc n v h) e he

theorem foldl_recordSet_mem : ∀ (ns : List String) (acc : List (String × String)) (v k : String),
    (k ∈ ns ∨ (k, v) ∈ acc) →
    (k, v) ∈ ns.foldl (fun a n => recordSet a n v) acc := by
  intro ns
  induction ns with
  | nil =>
    intro acc v k h
    rcases h with h | h
    · simp at h
    · exact h
  | cons n t ih =>
    intro acc v k h
    rcases h with h | h
    · rcases List.mem_cons.mp h with h | h
      · subst h
        exact ih (recordSet acc k v) v k (Or.inr (recordSet_mem_self acc k v))
      · exact ih (recordSet acc n v) v k (Or.inl h)
    · exact ih (recordSet acc n v) v k (Or.inr (recordSet_mem_of_mem acc n v k h))

theorem foldl_recordSet_src : ∀ (ns : List String) (acc : List (String × String)) (v : String)
    (e : String × String),
    e ∈ ns.foldl (fun a n => recordSet a n v) acc →
    e ∈ acc ∨ (e.1 ∈ ns ∧ e.2 = v) := by
  intro ns
  induction ns with
  | nil => intro acc v e h; exact Or.inl h
  | cons n t ih =>
    intro acc v e h
    rcases ih (recordSet acc n v) v e h with h2 | h2
    · rcases recordSet_src acc n v e h2 with h3 | h3
      · exact Or.inl h3
      · exact Or.inr ⟨by simp [h3], by simp [h3]⟩
    · exact Or.inr ⟨List.mem_cons_of_mem _ h2.1, h2.2⟩

theorem foldl_recordSet_sortedKeys : ∀ (ns : List String) (acc : List (String × String))
    (v : String),
    List.Pairwise strLe (acc.map Prod.fst) →
    List.Sorted strLe ns →
    (∀ k ∈ acc.map Prod.fst, ∀ n ∈ ns, strLe k n) →
    List.Pairwise strLe ((ns.foldl (fun a n => recordSet a n v) acc).map Prod.fst) := by
  intro ns
  induction ns with
  | nil => intro acc v hacc _ _; exact hacc
  | cons n t ih =>
    intro acc v hacc hsort hbound
    have hsort' := (List.sorted_cons.mp hsort)
    refine ih (recordSet acc n v) v ?_ hsort'.2 ?_
    · rw [recordSet_fst]
      split
      · exact hacc
      · rw [List.pairwise_append]
        refine ⟨hacc, List.pairwise_singleton _ _, ?_⟩
        intro a ha b hb
        rw [List.mem_singleton] at hb
        rw [hb]
        exact hbound a ha n (List.mem_cons_self _ _)
    · intro k hk m hm
      rw [recordSet_fst] at hk
      have hk2 : k ∈ acc.map Prod.fst ∨ k = n := by
        by_cases hc : n ∈ acc.map Prod.fst
        · rw [if_pos hc] at hk; exact Or.inl hk
        · rw [if_neg hc, List.mem_append, List.mem_singleton] at hk
          exact hk
      rcases hk2 with hk2 | hk2
      · exact hbound k hk2 m (List.mem_cons_of_mem _ hm)
      · subst hk2
        exact hsort'.1 m hm

/-! ## Claim theorems -/

/-- C2: the rendered path union's members are exactly the entrypoint
bundle paths (markup entries with `.html`, script entries with `.js`)
together with the public asset paths, each normalized, `/`-prefixed and
quoted (a permutation of the unsorted member list, so duplicates are
preserved and nothing is added or dropped), in lexicographically sorted
order, with one member per entrypoint and per asset; on the example
inputs the members are exactly `"/background.js"`, `"/icon.png"`,
`"/popup.html"` in that order. -/
theorem c2_paths_union :
    (∀ outDir eps pf,
      (pathsUnionLines outDir eps pf).Perm (pathsUnionMembers outDir eps pf))
    ∧ (∀ outDir eps pf, List.Sorted (· ≤ ·) (pathsUnionLines outDir eps pf))
    ∧ (∀ outDir (eps : List Entrypoint) (pf : List String),
        (pathsUnionLines outDir eps pf).length = eps.length + pf.length)
    ∧ pathsUnionLines "/out"
        [{ name := "popup", outputBaseName := "popup", kind := EntrypointKind.markup },
         { name := "background", outputBaseName := "background",
           kind := EntrypointKind.script }]
        ["icon.png"]
        = ["    | \"/background.js\"", "    | \"/icon.png\"", "    | \"/popup.html\""] := by
  refine ⟨fun o e p => List.perm_insertionSort _ _,
    fun o e p => (List.sorted_insertionSort strLe _).imp fun h => (strLe_iff _ _).mp h,
    fun o e p => ?_, by decide⟩
  rw [pathsUnionLines, List.length_insertionSort]
  simp [pathsUnionMembers]

/-- C3: with zero entrypoints and zero public assets the union
placeholder is rendered as the uninhabited alternative `    | never`,
and the resulting `paths.d.ts` is the structurally valid declaration
with that single union member. -/
theorem c3_empty_union :
    (∀ outDir, pathsUnionRendered outDir [] [] = "    | never")
    ∧ pathsContent "/out" [] []
        = "// Generated by wxt\nimport \"wxt/browser\";\n\ndeclare module \"wxt/browser\" \x7b\n  export type PublicPath =\n    | never\n  type HtmlPublicPath = Extract<PublicPath, `$\x7bstring\x7d.html`>\n  export interface WxtRuntime extends Runtime.Static \x7b\n    getURL(path: PublicPath): string;\n    getURL(path: `$\x7bHtmlPublicPath\x7d$\x7bstring\x7d`): string;\n  \x7d\n\x7d\n" := by
  exact ⟨fun outDir => rfl, by decide⟩

/-- C4: the root declaration file's module-augmentation directives are
exactly one directive per module that is externally installed
(`node_module`) with a non-null configuration key, and none for any
other module; on the example module list only module `"a"` gets a
directive. -/
theorem c4_module_references :
    (∀ m : WxtModule,
      moduleRefPred m = true ↔ (m.type = ModuleType.node_module ∧ m.configKey ≠ none))
    ∧ (∀ ms : List WxtModule,
        moduleReferenceLines ms = (ms.filter moduleRefPred).map renderModuleRef)
    ∧ moduleReferenceLines
        [{ id := "a", type := ModuleType.node_module, configKey := some "a" },
         { id := "b", type := ModuleType.node_module, configKey := none },
         { id := "c", type := ModuleType.localModule, configKey := some "c" }]
        = ["/// <reference types=\"a\" />"] := by
  refine ⟨fun m => ?_, fun ms => rfl, by decide⟩
  obtain ⟨id, ty, ck⟩ := m
  cases ty <;> cases ck <;> simp [moduleRefPred]

/-- C7: the localization declaration renders exactly one `getMessage`
overload per catalog message, in the parser's output order (position
`k` of the output renders position `k` of the catalog, so no sorting is
applied); on the example catalog the single overload has literal
parameter `"greet"` and its documentation embeds both the description
`greeting` and the literal message text. -/
theorem c7_i18n_overloads :
    (∀ raw, (i18nOverrides raw).length = raw.length)
    ∧ (∀ (raw : List (String × RawI18nMessage)) (k : Nat),
        (i18nOverrides raw)[k]?
          = (raw[k]?).map fun nr =>
              renderGetMessageOverride
                { name := nr.1, message := nr.2.message, description := nr.2.description })
    ∧ i18nOverrides
        [("greet", { message := "Hi \x7b\x7bname\x7d\x7d", description := some "greeting" })]
        = ["    /**\n     * greeting\n     *\n     * \"Hi \x7b\x7bname\x7d\x7d\"\n     */\n    getMessage(\n      messageName: \"greet\",\n      substitutions?: string | string[],\n      options?: GetMessageOptions,\n    ): string;"] := by
  refine ⟨fun raw => by simp [i18nOverrides, parseI18nMessages], fun raw k => ?_, by decide⟩
  simp [i18nOverrides, parseI18nMessages, List.getElem?_map]
  cases raw[k]? <;> simp

/-- C5: each alias mapping contributes exactly two `paths` entries (the
list has two lines per alias): the bare alias mapped to the alias
target's path normalized and made relative to the project descriptor's
directory, and the wildcard form with `/*` appended to both sides; on
the example `{"@": "/project/src"}` with descriptor directory
`/project` the two entries are exactly `"@": ["src"]` and
`"@/*": ["src/*"]`. -/
theorem c5_alias_paths :
    (∀ dir (al : List (String × String)),
      (aliasPathLines dir al).length = 2 * al.length)
    ∧ (∀ dir (al : List (String × String)) (a p : String), (a, p) ∈ al →
        ("      \"" ++ a ++ "\": [\"" ++ getTsconfigPath dir p ++ "\"]")
            ∈ aliasPathLines dir al
          ∧ ("      \"" ++ a ++ "/*\": [\"" ++ getTsconfigPath dir p ++ "/*\"]")
            ∈ aliasPathLines dir al)
    ∧ aliasPathLines "/project" [("@", "/project/src")]
        = ["      \"@\": [\"src\"]", "      \"@/*\": [\"src/*\"]"] := by
  refine ⟨fun dir al => ?_, fun dir al a p h => ?_, by decide⟩
  · induction al with
    | nil => rfl
    | cons hd t ih =>
      have hlen : (aliasPathPair dir hd).length = 2 := rfl
      rw [show aliasPathLines dir (hd :: t)
            = aliasPathPair dir hd ++ aliasPathLines dir t from rfl,
        List.length_append, hlen, ih, List.length_cons]
      omega
  · constructor
    · exact List.mem_flatMap.mpr ⟨(a, p), h, by simp [aliasPathPair]⟩
    · exact List.mem_flatMap.mpr ⟨(a, p), h, by simp [aliasPathPair]⟩

/-- Witness for `c5_alias_paths`: its membership part applied to the
example alias table. -/
theorem c5_witness :
    ("      \"@\": [\"src\"]") ∈ aliasPathLines "/project" [("@", "/project/src")]
    ∧ ("      \"@/*\": [\"src/*\"]") ∈ aliasPathLines "/project" [("@", "/project/src")] := by
  have h := c5_alias_paths.2.1 "/project" [("@", "/project/src")] "@" "/project/src"
    (by decide)
  have e1 : ("      \"@\": [\"src\"]" : String)
      = "      \"" ++ "@" ++ "\": [\"" ++ getTsconfigPath "/project" "/project/src" ++ "\"]" := by
    decide
  have e2 : ("      \"@/*\": [\"src/*\"]" : String)
      = "      \"" ++ "@" ++ "/*\": [\"" ++ getTsconfigPath "/project" "/project/src" ++ "/*\"]" := by
    decide
  exact ⟨e1 ▸ h.1, e2 ▸ h.2⟩

/-- C6: the globals interface members are the build-mode globals'
members followed by the entrypoint-context globals' members, in exactly
that concatenation order and without deduplication (one member per
global); in particular for any global of the build-mode list and any
global of the entrypoint list — e.g. two globals with the same name —
the entrypoint-context member sits at a strictly later index. -/
theorem c6_globals_concat :
    (∀ bg eg, globalsMemberLines bg eg
        = bg.map renderGlobalMember ++ eg.map renderGlobalMember)
    ∧ (∀ bg eg, (globalsMemberLines bg eg).length = bg.length + eg.length)
    ∧ (∀ (bg eg : List WxtGlobal) (g1 g2 : WxtGlobal), g1 ∈ bg → g2 ∈ eg →
        ∃ (i j : Nat), i < j
          ∧ (globalsMemberLines bg eg)[i]? = some (renderGlobalMember g1)
          ∧ (globalsMemberLines bg eg)[j]? = some (renderGlobalMember g2)) := by
  refine ⟨fun bg eg => by simp [globalsMemberLines],
    fun bg eg => by simp [globalsMemberLines], ?_⟩
  intro bg eg g1 g2 h1 h2
  obtain ⟨i, hi, hgi⟩ := List.mem_iff_getElem.mp h1
  obtain ⟨k, hk, hgk⟩ := List.mem_iff_getElem.mp h2
  refine ⟨i, bg.length + k, by omega, ?_, ?_⟩
  · rw [globalsMemberLines, List.getElem?_map, List.getElem?_append,
      if_pos hi, List.getElem?_eq_getElem hi, hgi]
    rfl
  · rw [globalsMemberLines, List.getElem?_map, List.getElem?_append,
      if_neg (by omega)]
    have hk2 : bg.length + k - bg.length = k := by omega
    rw [hk2, List.getElem?_eq_getElem hk, hgk]
    rfl

/-- Witness for `c6_globals_concat`: both sources define a global named
`X`; the entrypoint-context member is at the later index. -/
theorem c6_witness :
    ∃ (i j : Nat), i < j
      ∧ (globalsMemberLines [{ name := "X", type := "string" }]
          [{ name := "X", type := "number" }])[i]?
          = some (renderGlobalMember { name := "X", type := "string" })
      ∧ (globalsMemberLines [{ name := "X", type := "string" }]
          [{ name := "X", type := "number" }])[j]?
          = some (renderGlobalMember { name := "X", type := "number" }) :=
  c6_globals_concat.2.2 _ _ _ _ (by decide) (by decide)

/-- C9: with a default locale configured, a missing catalog file makes
`writeI18nDeclarationFile` fail with the file-not-found error and a
catalog the decoder rejects makes it fail with the parse error, and in
both cases the returned file system is exactly the input one — no file,
in particular the localization declaration file, was written. -/
theorem c9_i18n_error_atomicity :
    ∀ (cfg : WxtConfig) (ext : ExternalInputs) (fs : Fs) (loc : String),
      cfg.defaultLocale = some loc →
      (fsRead fs (catalogPath cfg loc) = none →
        writeI18nDeclarationFile cfg ext fs = (fs, Except.error GenError.fileNotFound))
      ∧ (∀ content, fsRead fs (catalogPath cfg loc) = some content →
          ext.decodeCatalog content = none →
          writeI18nDeclarationFile cfg ext fs = (fs, Except.error GenError.parseError)) := by
  intro cfg ext fs loc hloc
  constructor
  · intro hread
    simp [writeI18nDeclarationFile, readI18nMessages, hloc, hread]
  · intro content hread hdec
    simp [writeI18nDeclarationFile, readI18nMessages, hloc, hread, hdec]

/-- Witness for `c9_i18n_error_atomicity`: on the empty file system the
catalog file is missing, and on a file system holding an undecodable
catalog the decoder fails; both error without touching the file
system. -/
theorem c9_witness :
    writeI18nDeclarationFile exCfgLocale exExt []
      = ([], Except.error GenError.fileNotFound)
    ∧ writeI18nDeclarationFile exCfgLocale exExt
        [(catalogPath exCfgLocale "en", "nonsense")]
      = ([(catalogPath exCfgLocale "en", "nonsense")], Except.error GenError.parseError) :=
  ⟨(c9_i18n_error_atomicity exCfgLocale exExt [] "en" rfl).1 rfl,
   (c9_i18n_error_atomicity exCfgLocale exExt
      [(catalogPath exCfgLocale "en", "nonsense")] "en" rfl).2 "nonsense" (by decide) rfl⟩

/-- C10: a message with an absent or empty description falls back to
the literal documentation text `No message description.`, which then
occurs verbatim in the rendered overload's documentation comment, and
the effective description text is never empty. -/
theorem c10_description_fallback :
    (∀ m : Message, (m.description = none ∨ m.description = some "") →
      messageDescription m = "No message description.")
    ∧ (∀ m : Message, messageDescription m ≠ "")
    ∧ (∀ m : Message, (m.description = none ∨ m.description = some "") →
        List.IsInfix "No message description.".data (renderGetMessageOverride m).data) := by
  have hfall : ∀ m : Message, (m.description = none ∨ m.description = some "") →
      messageDescription m = "No message description." := by
    intro m h
    cases h with
    | inl h => simp [messageDescription, h]
    | inr h => simp [messageDescription, h]
  refine ⟨hfall, fun m => ?_, fun m h => ?_⟩
  · cases hd : m.description with
    | none => simp [messageDescription, hd]
    | some d =>
      by_cases he : d = "" <;> simp [messageDescription, hd, he]
  · refine ⟨"    /**\n     * ".data,
      ("\n     *\n     * \"" ++ m.message
        ++ "\"\n     */\n    getMessage(\n      messageName: \"" ++ m.name
        ++ "\",\n      substitutions?: string | string[],\n      options?: GetMessageOptions,\n    ): string;").data, ?_⟩
    simp [renderGetMessageOverride, hfall m h, String.data_append, List.append_assoc]

/-- Witness for `c10_description_fallback`: a message without a
description gets the fallback documentation text. -/
theorem c10_witness :
    messageDescription { name := "greet", message := "Hi", description := none }
      = "No message description."
    ∧ List.IsInfix "No message description.".data
        (renderGetMessageOverride
          { name := "greet", message := "Hi", description := none }).data :=
  ⟨c10_description_fallback.1 _ (Or.inl rfl),
   c10_description_fallback.2.2 _ (Or.inl rfl)⟩

/-- C8 counterexample: a binding whose effective name is the empty
string is dropped by the `filter(Boolean)` step, so the emitted
lint-globals map does not map that binding's name — the claim as
stated ("maps every auto-imported binding's name") fails on this
input. -/
theorem c8_counterexample :
    eslintrcEntries [{ name := "", as := none }] "true" = []
    ∧ effectiveImportName { name := "", as := none } = "" :=
  ⟨rfl, rfl⟩

/-- C8 (amended): the lint-globals map binds every auto-imported
binding's *non-empty* effective name (the alias when one is present,
the original name otherwise) to the configured severity value, contains
nothing else, and lists the names in alphabetically sorted order. -/
theorem c8_eslintrc_globals :
    (∀ (bs : List ImportBinding) (v : String),
      List.Pairwise (fun e1 e2 => (e1 : String × String).1 ≤ e2.1) (eslintrcEntries bs v))
    ∧ (∀ (bs : List ImportBinding) (v : String) (b : ImportBinding),
        b ∈ bs → effectiveImportName b ≠ "" →
        (effectiveImportName b, v) ∈ eslintrcEntries bs v)
    ∧ (∀ (bs : List ImportBinding) (v : String) (e : String × String),
        e ∈ eslintrcEntries bs v →
        e.2 = v ∧ e.1 ≠ "" ∧ ∃ b ∈ bs, effectiveImportName b = e.1)
    ∧ (∀ (nm al : String),
        effectiveImportName { name := nm, as := some al } = al
        ∧ effectiveImportName { name := nm, as := none } = nm) := by
  have hmemnames : ∀ (bs : List ImportBinding) (k : String),
      k ∈ eslintGlobalNames bs ↔ (k ≠ "" ∧ ∃ b ∈ bs, effectiveImportName b = k) := by
    intro bs k
    rw [eslintGlobalNames, List.mem_insertionSort, List.mem_filter, List.mem_map]
    constructor
    · rintro ⟨⟨b, hb, hbk⟩, hne⟩
      exact ⟨by simpa using hne, b, hb, hbk⟩
    · rintro ⟨hne, b, hb, hbk⟩
      exact ⟨⟨b, hb, hbk⟩, by simpa using hne⟩
  refine ⟨fun bs v => ?_, fun bs v b hb hne => ?_, fun bs v e he => ?_,
    fun nm al => ⟨rfl, rfl⟩⟩
  · have hp := foldl_recordSet_sortedKeys (eslintGlobalNames bs) [] v
      (by simp) (List.sorted_insertionSort strLe _) (by simp)
    have hp2 := (List.pairwise_map).mp hp
    exact hp2.imp fun h => (strLe_iff _ _).mp h
  · refine foldl_recordSet_mem (eslintGlobalNames bs) [] v _ (Or.inl ?_)
    exact (hmemnames bs _).mpr ⟨hne, b, hb, rfl⟩
  · rcases foldl_recordSet_src (eslintGlobalNames bs) [] v e he with h | h
    · simp at h
    · have h2 := (hmemnames bs e.1).mp h.1
      exact ⟨h.2, h2.1, h2.2⟩

/-- Witness for `c8_eslintrc_globals`: a concrete binding list with an
alias; the aliased name is bound to the severity value. -/
theorem c8_witness :
    ("x", "true") ∈ eslintrcEntries
      [{ name := "b", as := none }, { name := "y", as := some "x" }] "true" :=
  c8_eslintrc_globals.2.1 _ "true" { name := "y", as := some "x" }
    (by decide) (by decide)


theorem importsStage_refs (cfg : WxtConfig) (ext : ExternalInputs) (fs : Fs) :
    (importsStage cfg ext fs).2.2
      = if cfg.importsEnabled then [importsPath cfg] else [] := by
  unfold importsStage
  cases hI : cfg.importsEnabled <;> cases hE : cfg.eslintrc.enabled <;> simp

theorem secondRun_aux {cfg : WxtConfig} {ext : ExternalInputs} {eps : List Entrypoint}
    {fs1 : Fs} {msgs : List Message}
    (himp : cfg.importsEnabled = true →
      fsRead fs1 (importsPath cfg) = some (importsFileContent ext))
    (hesl : cfg.importsEnabled = true → cfg.eslintrc.enabled = true →
      fsRead fs1 cfg.eslintrc.filePath = some (eslintFileContent cfg ext))
    (hpaths : fsRead fs1 (pathsPath cfg)
      = some (pathsContent cfg.outDir eps ext.publicFiles))
    (hi18n : fsRead fs1 (i18nPath cfg) = some (i18nContent msgs))
    (hglob : fsRead fs1 (globalsPath cfg) = some (globalsFileContent ext))
    (hmain : fsRead fs1 (mainPath cfg)
      = some (mainContent cfg ((if cfg.importsEnabled then [importsPath cfg] else [])
          ++ [pathsPath cfg, i18nPath cfg, globalsPath cfg])))
    (hts : fsRead fs1 (tsconfigPath cfg) = some (tsconfigContent cfg (mainPath cfg)))
    (hr1 : readI18nMessages cfg ext fs1 = Except.ok msgs) :
    generateTypesDir cfg ext eps fs1
      = Except.ok (fs1, if cfg.importsEnabled && cfg.eslintrc.enabled then 1 else 0) := by
  unfold generateTypesDir
  simp only [importsStage_noop himp hesl, writeFileIfDifferent_noop hpaths,
    writeI18n_ok hr1, writeFileIfDifferent_noop hi18n,
    finishStage_noop hglob hmain hts, boolNat]
  simp

/-- C1 counterexample: with imports and eslintrc support enabled,
running the full pipeline a second time with unchanged inputs performs
one file write, not zero: the eslintrc file goes through the
unconditional `fs.writeJson`, so it is rewritten (with byte-identical
content) on every run. -/
theorem c1_counterexample :
    secondRunWrites exCfg exExt exEntrypoints [] = some 1
    ∧ secondRunWrites exCfg exExt exEntrypoints [] ≠ some 0 := by
  constructor
  · decide
  · decide

/-- C1 (amended): for every configuration whose written-file paths are
pairwise distinct and do not collide with the catalog path, after a
successful run a second run with unchanged inputs returns the file
system byte-identical (every file compares equal and is left untouched
by the idempotent writer) and performs exactly one write — the
unconditional eslintrc rewrite — when imports and eslintrc support are
both enabled, and zero writes otherwise. -/

theorem c1_idempotent_rerun :
    ∀ (cfg : WxtConfig) (ext : ExternalInputs) (eps : List Entrypoint) (fs fs1 : Fs) (n : Nat),
      List.Pairwise (· ≠ ·) (writtenPaths cfg) →
      (∀ loc, cfg.defaultLocale = some loc → catalogPath cfg loc ∉ writtenPaths cfg) →
      generateTypesDir cfg ext eps fs = Except.ok (fs1, n) →
      generateTypesDir cfg ext eps fs1
        = Except.ok (fs1, if cfg.importsEnabled && cfg.eslintrc.enabled then 1 else 0) := by
  intro cfg ext eps fs fs1 n hdist hcat h
  have hPcore : List.Pairwise (fun a b => a ≠ b)
      [pathsPath cfg, i18nPath cfg, globalsPath cfg, mainPath cfg, tsconfigPath cfg] :=
    hdist.sublist (List.sublist_append_right _ _)
  obtain ⟨hp1, hPcore⟩ := List.pairwise_cons.mp hPcore
  obtain ⟨hp2, hPcore⟩ := List.pairwise_cons.mp hPcore
  obtain ⟨hp3, hPcore⟩ := List.pairwise_cons.mp hPcore
  obtain ⟨hp4, -⟩ := List.pairwise_cons.mp hPcore
  have hImpNe : cfg.importsEnabled = true →
      (∀ b ∈ [pathsPath cfg, i18nPath cfg, globalsPath cfg, mainPath cfg, tsconfigPath cfg],
        importsPath cfg ≠ b)
      ∧ (cfg.eslintrc.enabled = true → importsPath cfg ≠ cfg.eslintrc.filePath) := by
    intro hI
    rw [writtenPaths, hI] at hdist
    cases hE : cfg.eslintrc.enabled
    · rw [hE] at hdist
      simp only [if_true, if_false, Bool.false_eq_true, List.cons_append, List.nil_append,
        List.singleton_append] at hdist
      obtain ⟨h1, -⟩ := List.pairwise_cons.mp hdist
      exact ⟨h1, fun hEc => by simp [hE] at hEc⟩
    · rw [hE] at hdist
      simp only [if_true, List.cons_append, List.nil_append, List.singleton_append] at hdist
      obtain ⟨h1, -⟩ := List.pairwise_cons.mp hdist
      exact ⟨fun b hb => h1 b (List.mem_cons_of_mem _ hb),
        fun _ => h1 _ (List.mem_cons_self _ _)⟩
  have hEslNe : cfg.importsEnabled = true → cfg.eslintrc.enabled = true →
      ∀ b ∈ [pathsPath cfg, i18nPath cfg, globalsPath cfg, mainPath cfg, tsconfigPath cfg],
        cfg.eslintrc.filePath ≠ b := by
    intro hI hE
    rw [writtenPaths, hI, hE] at hdist
    simp only [if_true, List.cons_append, List.nil_append, List.singleton_append] at hdist
    obtain ⟨-, hdist⟩ := List.pairwise_cons.mp hdist
    obtain ⟨h2, -⟩ := List.pairwise_cons.mp hdist
    exact h2
  cases hre : readI18nMessages cfg ext
      (writeFileIfDifferent (pathsPath cfg) (pathsContent cfg.outDir eps ext.publicFiles)
        (importsStage cfg ext fs).1).1 with
  | error e =>
    have herr : generateTypesDir cfg ext eps fs = Except.error e := by
      simp [generateTypesDir, writeI18n_err hre]
    rw [herr] at h
    exact Except.noConfusion h
  | ok msgs =>
    simp only [generateTypesDir, writeI18n_ok hre, importsStage_refs] at h
    rw [Except.ok.injEq, Prod.mk.injEq] at h
    obtain ⟨hfs1, -⟩ := h
    have hts : fsRead fs1 (tsconfigPath cfg) = some (tsconfigContent cfg (mainPath cfg)) := by
      rw [← hfs1]; exact fsRead_finishStage_tsconfig
    have hmain : fsRead fs1 (mainPath cfg)
        = some (mainContent cfg ((if cfg.importsEnabled then [importsPath cfg] else [])
            ++ [pathsPath cfg, i18nPath cfg, globalsPath cfg])) := by
      rw [← hfs1]; exact fsRead_finishStage_main (hp4 _ (by simp))
    have hglob : fsRead fs1 (globalsPath cfg) = some (globalsFileContent ext) := by
      rw [← hfs1]; exact fsRead_finishStage_globals (hp3 _ (by simp)) (hp3 _ (by simp))
    have hi18n : fsRead fs1 (i18nPath cfg) = some (i18nContent msgs) := by
      rw [← hfs1, fsRead_finishStage_other (hp2 _ (by simp)) (hp2 _ (by simp))
        (hp2 _ (by simp)), fsRead_writeFileIfDifferent]
      simp
    have hpaths : fsRead fs1 (pathsPath cfg)
        = some (pathsContent cfg.outDir eps ext.publicFiles) := by
      rw [← hfs1, fsRead_finishStage_other (hp1 _ (by simp)) (hp1 _ (by simp))
        (hp1 _ (by simp)), fsRead_writeFileIfDifferent, if_neg (hp1 _ (by simp)),
        fsRead_writeFileIfDifferent]
      simp
    have himp : cfg.importsEnabled = true →
        fsRead fs1 (importsPath cfg) = some (importsFileContent ext) := by
      intro hI
      obtain ⟨hA, hB⟩ := hImpNe hI
      rw [← hfs1, fsRead_finishStage_other (hA _ (by simp)) (hA _ (by simp))
        (hA _ (by simp)), fsRead_writeFileIfDifferent, if_neg (hA _ (by simp)),
        fsRead_writeFileIfDifferent, if_neg (hA _ (by simp))]
      exact fsRead_importsStage_imports hI hB
    have hesl : cfg.importsEnabled = true → cfg.eslintrc.enabled = true →
        fsRead fs1 cfg.eslintrc.filePath = some (eslintFileContent cfg ext) := by
      intro hI hE
      have hC := hEslNe hI hE
      rw [← hfs1, fsRead_finishStage_other (hC _ (by simp)) (hC _ (by simp))
        (hC _ (by simp)), fsRead_writeFileIfDifferent, if_neg (hC _ (by simp)),
        fsRead_writeFileIfDifferent, if_neg (hC _ (by simp))]
      exact fsRead_importsStage_eslint hI hE
    have hcatNe : ∀ loc, cfg.defaultLocale = some loc →
        ∀ p ∈ writtenPaths cfg, catalogPath cfg loc ≠ p :=
      fun loc hl p hp he => (hcat loc hl) (he ▸ hp)
    have hmemCore : ∀ b ∈ [pathsPath cfg, i18nPath cfg, globalsPath cfg, mainPath cfg,
        tsconfigPath cfg], b ∈ writtenPaths cfg := by
      intro b hb
      rw [writtenPaths]
      exact List.mem_append_right _ hb
    have hr1 : readI18nMessages cfg ext fs1 = Except.ok msgs := by
      have hpres1 : ∀ loc, cfg.defaultLocale = some loc →
          fsRead fs1 (catalogPath cfg loc) = fsRead fs (catalogPath cfg loc) := by
        intro loc hl
        have hcp := hcatNe loc hl
        rw [← hfs1,
          fsRead_finishStage_other (hcp _ (hmemCore _ (by simp)))
            (hcp _ (hmemCore _ (by simp))) (hcp _ (hmemCore _ (by simp))),
          fsRead_writeFileIfDifferent, if_neg (hcp _ (hmemCore _ (by simp))),
          fsRead_writeFileIfDifferent, if_neg (hcp _ (hmemCore _ (by simp))),
          fsRead_importsStage_other
            (fun hI => hcp _ (by rw [writtenPaths, hI]; simp))
            (fun hI hE => hcp _ (by rw [writtenPaths, hI, hE]; simp))]
      have hpres2 : ∀ loc, cfg.defaultLocale = some loc →
          fsRead (writeFileIfDifferent (pathsPath cfg)
              (pathsContent cfg.outDir eps ext.publicFiles)
              (importsStage cfg ext fs).1).1 (catalogPath cfg loc)
            = fsRead fs (catalogPath cfg loc) := by
        intro loc hl
        have hcp := hcatNe loc hl
        rw [fsRead_writeFileIfDifferent, if_neg (hcp _ (hmemCore _ (by simp))),
          fsRead_importsStage_other
            (fun hI => hcp _ (by rw [writtenPaths, hI]; simp))
            (fun hI hE => hcp _ (by rw [writtenPaths, hI, hE]; simp))]
      exact (readI18nMessages_congr hpres1).trans
        ((readI18nMessages_congr hpres2).symm.trans hre)
    exact secondRun_aux himp hesl hpaths hi18n hglob hmain hts hr1

/-- Witness for `c1_idempotent_rerun`: a concrete first run from the
empty file system performs 7 writes; the second run returns the same
file system with exactly the one eslintrc write. -/
theorem c1_witness :
    generateTypesDir exCfg exExt exEntrypoints firstRunFs
      = Except.ok (firstRunFs, 1) := by
  have hfirst : generateTypesDir exCfg exExt exEntrypoints []
      = Except.ok (firstRunFs, 7) := rfl
  have hd : List.Pairwise (· ≠ ·) (writtenPaths exCfg) := by decide
  have hc : ∀ loc, exCfg.defaultLocale = some loc →
      catalogPath exCfg loc ∉ writtenPaths exCfg := by
    intro loc hl
    exact Option.noConfusion hl
  have h2 := c1_idempotent_rerun exCfg exExt exEntrypoints [] firstRunFs 7 hd hc hfirst
  simpa using h2

end Wxt
